import Mathlib

/-!
Shallow embedding of the vm-scaling operator scripts
(`src/python/task1/horizontal-scaling.py` and `src/python/task2/autoscaling.py`).

Text is modelled as `List Char`.  External effects (HTTP fetches, EC2
provisioning, wall-clock time) are modelled as explicit inputs: each loop
iteration consumes an `Env` record carrying the values the outside world
returned in that iteration, and fallible calls are modelled with
`Option`/`Except` or explicit outcome constructors.
-/

/-! ### Literal tokens appearing in the scripts -/

/-- The literal `'log'` tail of the regex `name=(.*log)` (`TEST_NAME_REGEX`). -/
def logTok : List Char := ['l', 'o', 'g']

/-- The literal `'name='` head of the regex `name=(.*log)` (`TEST_NAME_REGEX`). -/
def nameTok : List Char := ['n', 'a', 'm', 'e', '=']

/-- The literal `'Current rps='` marker scanned for by `get_rps` (12 characters). -/
def rpsMarker : List Char :=
  ['C', 'u', 'r', 'r', 'e', 'n', 't', ' ', 'r', 'p', 's', '=']

/-- The literal `'[Test finished]'` terminal marker used by `is_test_complete`. -/
def finishedMarker : List Char :=
  ['[', 'T', 'e', 's', 't', ' ', 'f', 'i', 'n', 'i', 's', 'h', 'e', 'd', ']']

/-- Python's `pat in text` substring test, on `List Char`. -/
def containsTok (pat : List Char) : List Char → Bool
  | [] => pat.isEmpty
  | c :: rest => pat.isPrefixOf (c :: rest) || containsTok pat rest

/-! ### `get_test_id` (task1 lines 109-119, task2 lines 128-131)

Python source:
```
regexpr = re.compile(r'name=(.*log)')
return regexpr.findall(response_text)[0]
```
`re.findall` scans the text left to right; at each position the engine first
matches the literal `name=`, then the greedy `.*` (which does not cross a
newline), backtracking from the right so that the group ends at the *last*
occurrence of `log` on that line.  `[0]` takes the first match's capture and
raises `IndexError` when there is no match; we model that partiality with
`Option`. -/

/-- The span the dot of `.*` can range over: characters up to the first newline. -/
def takeLine (cs : List Char) : List Char := cs.takeWhile (fun c => c != '\n')

/-- `logAt r j` holds when the literal `log` occurs in `r` starting at index `j`. -/
def logAt (r : List Char) (j : Nat) : Bool := logTok.isPrefixOf (List.drop j r)

/-- Greedy match of `.*log` against a newline-free region: the capture runs from
the start of the region through the last occurrence of `log`; `none` when `log`
does not occur. -/
def greedyCap : List Char → Option (List Char)
  | [] => none
  | c :: rest =>
    match greedyCap rest with
    | some cap => some (c :: cap)
    | none => if logTok.isPrefixOf (c :: rest) then some logTok else none

/-- Left-to-right scan of `re.findall(r'name=(.*log)', s)`, returning the first
match's capture group (`findall(...)[0]`), or `none` when the list of matches
is empty (the Python code then raises `IndexError`). -/
def scanTestId : List Char → Option (List Char)
  | [] => none
  | c :: rest =>
    if nameTok.isPrefixOf (c :: rest) then
      match greedyCap (takeLine (List.drop 5 (c :: rest))) with
      | some cap => some cap
      | none => scanTestId rest
    else scanTestId rest

/-- `get_test_id` of both scripts, as a function of the response text. -/
def get_test_id (responseText : List Char) : Option (List Char) :=
  scanTestId responseText

/-- The region the group `(.*log)` is matched against when `name=` is found at
index `i` of `s`: the rest of that line, starting after the 5 chars of `name=`. -/
def regionAt (s : List Char) (i : Nat) : List Char :=
  takeLine (List.drop (i + 5) s)

/-- Declarative reading of "the pattern `name=(.*log)` matches at index `i`":
`name=` occurs at `i` and `log` occurs somewhere in the remainder of the line. -/
def matchAt (s : List Char) (i : Nat) : Prop :=
  nameTok.isPrefixOf (List.drop i s) = true ∧ ∃ j, logAt (regionAt s i) j = true

/-! ### `get_rps` (task1 lines 166-184)

Python source:
```
config = configparser.ConfigParser(strict=False)
config.read_string(requests.get(log_string).text)
sections = config.sections()
sections.reverse()
rps = 0
for sec in sections:
    if 'Current rps=' in sec:
        rps = float(sec[len('Current rps='):])
        break
return rps
```
We model the report at the granularity `configparser` exposes: the ordered
list of section-header strings appearing in the fetched text.
`ConfigParser` keeps its sections in a dict keyed by header text, so with
`strict=False` a duplicate header is *merged into its first occurrence* and
`config.sections()` lists each distinct header once, in order of first
appearance; `firstDedup` models exactly that.  `float(...)` raising
`ValueError` is modelled by `parseFloat` returning `none`. -/

/-- Value of a non-empty digit string. -/
def digitsVal (cs : List Char) : Nat :=
  cs.foldl (fun a c => a * 10 + (c.toNat - 48)) 0

/-- Model of Python's `float(s)` on the unsigned decimal literals produced by
the load generator's log (`digits` or `digits.digits`); any other shape is
modelled as `none` (a `ValueError` in the source, which `get_rps` does not
catch). -/
def parseFloat (cs : List Char) : Option Rat :=
  let ip := cs.takeWhile (fun c => c != '.')
  match cs.dropWhile (fun c => c != '.') with
  | [] =>
    if ip.isEmpty then none
    else if ip.all Char.isDigit then some ((digitsVal ip : Nat) : Rat) else none
  | _ :: fp =>
    if ip.isEmpty || fp.isEmpty then none
    else if ip.all Char.isDigit && fp.all Char.isDigit then
      some (((digitsVal ip : Nat) : Rat) + ((digitsVal fp : Nat) : Rat) / ((10 : Rat) ^ fp.length))
    else none

/-- Keep the first occurrence of each section header, in order of first
appearance (`ConfigParser`'s dict of sections under `strict=False`). -/
def firstDedupAux : List (List Char) → List (List Char) → List (List Char)
  | [], _ => []
  | s :: rest, seen =>
    if s ∈ seen then firstDedupAux rest seen
    else s :: firstDedupAux rest (s :: seen)

/-- `config.sections()`: distinct section headers in order of first appearance. -/
def firstDedup (sections : List (List Char)) : List (List Char) :=
  firstDedupAux sections []

/-- `get_rps` of task1, as a function of the ordered list of section headers in
the fetched report text.  `none` models the uncaught `ValueError` of `float`. -/
def get_rps (sections : List (List Char)) : Option Rat :=
  match (firstDedup sections).reverse.find? (fun s => containsTok rpsMarker s) with
  | none => some 0
  | some s => parseFloat (List.drop 12 s)

/-- Modelled from the spec's words, for comparison with `get_rps` (not from the
source): "returns the most recently reported value when multiple are present",
i.e. the value of the *last-occurring* rps section of the raw report, with no
merging of duplicate headers. -/
def lastRpsSpec (sections : List (List Char)) : Option Rat :=
  match sections.reverse.find? (fun s => containsTok rpsMarker s) with
  | none => some 0
  | some s => parseFloat (List.drop 12 s)

/-- Section header `Current rps=10`. -/
def rpsSec10 : List Char := rpsMarker ++ ['1', '0']

/-- Section header `Current rps=30`. -/
def rpsSec30 : List Char := rpsMarker ++ ['3', '0']

/-- Section header `Current rps=45`. -/
def rpsSec45 : List Char := rpsMarker ++ ['4', '5']

/-! ### `wait_for_server_health` (task1 lines 206-227)

Python source:
```
retries = 0
while retries < 40:
    try:
        resp = requests.get(url, timeout=1)
        if resp.status_code == 200:
            return True
    except requests.exceptions.RequestException:
        pass
    time.sleep(2)
    retries += 1
return False
```
The outside world is modelled by `probe : Nat → ProbeRes` giving the outcome
of the probe made when `retries = i`.  We return the result together with the
number of probe attempts made.  The loop counter counts up in the source; the
recursion below carries the remaining budget `40 - retries`, which decreases
structurally. -/

/-- Outcome of one health probe: a transport error
(`requests.exceptions.RequestException`) or an HTTP status code. -/
inductive ProbeRes where
  | raised : ProbeRes
  | status : Nat → ProbeRes
  deriving DecidableEq

/-- The probe loop from counter value `retries` with `budget = 40 - retries`
iterations left; returns (result, number of probe attempts made from here). -/
def waitHealthAux (probe : Nat → ProbeRes) : Nat → Nat → Bool × Nat
  | _, 0 => (false, 0)
  | retries, b + 1 =>
    if probe retries = .status 200 then (true, 1)
    else
      let p := waitHealthAux probe (retries + 1) b
      (p.1, p.2 + 1)

/-- `wait_for_server_health`, returning its result paired with the number of
probe attempts it made. -/
def wait_for_server_health (probe : Nat → ProbeRes) : Bool × Nat :=
  waitHealthAux probe 0 40

/-! ### The two `is_test_complete` functions (task1 lines 122-138, task2
lines 229-242)

Task 1:
```
f = open(log_name + ".log", "w")        # truncates the file to empty
log_text = requests.get(log_string).text  # an exception propagates from here
f.write(log_text)
f.close()
return '[Test finished]' in log_text
```
Task 2:
```
f = open(log_name + ".log", "w")        # truncates the file to empty
try:
    log_text = requests.get(log_string).text
    f.write(log_text)
except:
    pass
f.close()
with open(log_name + ".log", "r") as f:
    content = f.read()
    return '[Test finished]' in content
```
The fetch is modelled as an `Except` value; the local log file as the
`List Char` it holds when the function finishes. -/

/-- task2 `is_test_complete`: total; returns (completion result, file contents). -/
def autoIsTestComplete (fetchRes : Except Unit (List Char)) : Bool × List Char :=
  let fileContents : List Char :=
    match fetchRes with
    | .ok text => text
    | .error _ => []
  (containsTok finishedMarker fileContents, fileContents)

/-- task1 `is_test_complete`: a fetch exception propagates to the caller
(`Except.error`); on success returns (completion result, file contents). -/
def hsIsTestComplete (fetchRes : Except Unit (List Char)) :
    Except Unit (Bool × List Char) :=
  match fetchRes with
  | .error e => .error e
  | .ok text => .ok (containsTok finishedMarker text, text)

/-! ### The monitoring loop of task1 `main` (lines 300-351)

Python source (abridged):
```
last_launch_time = datetime.now(timezone.utc)
while not is_test_complete(lg_dns, log_name):
    current_rps = get_rps(lg_dns, log_name)
    current_time = datetime.now(timezone.utc)
    time_diff = (current_time - last_launch_time).total_seconds()
    if current_rps < 50 and time_diff > 100:
        try:
            new_ws = create_instance(WEB_SERVICE_AMI, sg2_id)
            all_instance_ids.append(new_ws.id)
            new_ws.reload()
            new_ws_dns = new_ws.public_dns_name
            if not new_ws_dns:
                continue                     # skips the sleep below
            if wait_for_server_health(new_ws_dns):
                res = requests.get(add_url)
                if res.status_code == 200:
                    last_launch_time = datetime.now(timezone.utc)
                else: ...                    # log, cooldown unchanged
            else: ...                        # log, cooldown unchanged
        except Exception as e: ...           # log, cooldown unchanged
    time.sleep(1)
```
Timestamps are whole seconds (`Int`); the rps value is a `Rat` (a Python
float).  Everything the outside world decides in one iteration is an `Env`.
Instance ids handed out by EC2 are modelled by the fresh counter `nextId`
(EC2 instance ids are unique). -/

/-- Outcome of `create_instance` inside the scale-out `try`: an exception
(e.g. the vCPU-limit error), or a running instance that does or does not
report a public DNS name yet. -/
inductive ProvisionResult where
  | perror : ProvisionResult
  | ok : Bool → ProvisionResult
  deriving DecidableEq

/-- What the outside world returns during one iteration of the loop. -/
structure Env where
  /-- `is_test_complete` raised (network error while fetching the log);
  the exception propagates out of the `while` condition. -/
  pollRaises : Bool
  /-- result of `is_test_complete` in the `while` condition -/
  testComplete : Bool
  /-- result of `get_rps` -/
  rps : Rat
  /-- `datetime.now` at the top of the iteration, in whole seconds -/
  now : Int
  /-- `datetime.now` at the cooldown reset after a successful registration -/
  nowReg : Int
  /-- outcome of `create_instance` if a scale-out is attempted -/
  provision : ProvisionResult
  /-- result of `wait_for_server_health` on the new instance -/
  healthOk : Bool
  /-- status code of `requests.get(add_url)`; `none` = the request raised -/
  addStatus : Option Nat
  deriving DecidableEq

/-- The controller's mutable state: the cooldown timestamp
`last_launch_time`, the cleanup list `all_instance_ids`, and the model's
fresh-id counter. -/
structure LoopState where
  lastLaunchTime : Int
  allInstanceIds : List Nat
  nextId : Nat
  deriving DecidableEq

/-- Which branch of the loop body an iteration took. -/
inductive Outcome where
  | noScale : Outcome
  | provisionError : Outcome
  | missingDns : Outcome
  | healthFailed : Outcome
  | registerRaised : Outcome
  | rejected : Outcome
  | registered : Outcome
  deriving DecidableEq

/-- Observable record of one iteration of the loop body. -/
structure IterRec where
  /-- a scale-out attempt was initiated (`create_instance` was called) -/
  attempted : Bool
  outcome : Outcome
  /-- number of `create_instance` calls made in this iteration -/
  provisionCalls : Nat
  /-- seconds slept at the end of the iteration (`continue` skips the sleep) -/
  sleepSecs : Nat
  deriving DecidableEq

/-- The guard `current_rps < 50 and time_diff > 100` (task1 line 315). -/
def scaleCond (env : Env) (st : LoopState) : Prop :=
  env.rps < 50 ∧ env.now - st.lastLaunchTime > 100

instance (env : Env) (st : LoopState) : Decidable (scaleCond env st) :=
  inferInstanceAs (Decidable (env.rps < 50 ∧ env.now - st.lastLaunchTime > 100))

/-- The body of the `try` block of a scale-out attempt (task1 lines 318-348),
together with the branch record. -/
def attemptStep (env : Env) (st : LoopState) : LoopState × IterRec :=
  match env.provision with
  | .perror => (st, ⟨true, .provisionError, 1, 1⟩)
  | .ok hasDns =>
    let st1 : LoopState :=
      { st with allInstanceIds := st.allInstanceIds ++ [st.nextId],
                nextId := st.nextId + 1 }
    if hasDns then
      if env.healthOk then
        match env.addStatus with
        | some code =>
          if code = 200 then
            ({ st1 with lastLaunchTime := env.nowReg }, ⟨true, .registered, 1, 1⟩)
          else (st1, ⟨true, .rejected, 1, 1⟩)
        | none => (st1, ⟨true, .registerRaised, 1, 1⟩)
      else (st1, ⟨true, .healthFailed, 1, 1⟩)
    else (st1, ⟨true, .missingDns, 1, 0⟩)

/-- One iteration of the loop body (entered when `is_test_complete` returned
`False`). -/
def stepIter (env : Env) (st : LoopState) : LoopState × IterRec :=
  if scaleCond env st then attemptStep env st
  else (st, ⟨false, .noScale, 0, 1⟩)

/-- How the monitoring loop was left. -/
inductive ExitKind where
  /-- `is_test_complete` returned `True` -/
  | completed : ExitKind
  /-- an unexpected exception propagated out of the loop -/
  | errored : ExitKind
  /-- the supplied trace ran out with the loop still going -/
  | running : ExitKind
  deriving DecidableEq

/-- Result of running the monitoring loop over a trace. -/
structure RunRes where
  final : LoopState
  exit : ExitKind
  recs : List IterRec
  deriving DecidableEq

/-- The `while not is_test_complete(...)` loop over a finite trace of
environments, one per iteration. -/
def runLoop : List Env → LoopState → RunRes
  | [], st => ⟨st, .running, []⟩
  | env :: rest, st =>
    if env.pollRaises then ⟨st, .errored, []⟩
    else if env.testComplete then ⟨st, .completed, []⟩
    else
      let p := stepIter env st
      let res := runLoop rest p.1
      ⟨res.final, res.exit, p.2 :: res.recs⟩

/-- The state on entering the loop (task1 lines 280-301): the load generator
(id 0) and the first web service (id 1) are already tracked, and
`last_launch_time` was just set to now. -/
def initState (t0 : Int) : LoopState := ⟨t0, [0, 1], 2⟩

/-- What `main`'s `finally` block does and saw (task1 lines 355-373). -/
structure MainResult where
  exit : ExitKind
  /-- ids passed to `ec2.instances.filter(InstanceIds=...).terminate()` -/
  terminated : List Nat
  /-- `sg.delete()` was issued -/
  sgDeleted : Bool
  deriving DecidableEq

/-- task1 `main` from loop entry on: run the loop, then — whether the loop
finished normally or an exception propagated — the `finally` block terminates
every tracked instance id and deletes the security group. -/
def mainModel (t0 : Int) (envs : List Env) : MainResult :=
  let res := runLoop envs (initState t0)
  ⟨res.exit, res.final.allInstanceIds, true⟩

/-! ### task2 `main`'s teardown paths (autoscaling.py lines 429-436)

```
try:
    ...
    while not is_test_complete(lg_dns, log_name):
        time.sleep(20)
    destroy_resources()
except Exception as e:
    print(f"CRITICAL ERROR: {e}")
    destroy_resources()
```
`destroy_resources` wraps every deletion step in its own `try/except`, so it
never raises; hence exactly one of the two call sites runs. -/

/-- Number of `destroy_resources()` calls task2's `main` makes, as a function
of whether the `try` body raises before reaching its final statement. -/
def autoDestroyCalls (raiseInTry : Bool) : Nat :=
  match (if raiseInTry then Except.error () else Except.ok ()) with
  | .ok _ => 1
  | .error (_ : Unit) => 1

/-! ### Concrete inputs used by the witnesses -/

/-- An iteration in which `is_test_complete` returns `True`. -/
def envDone : Env := ⟨false, true, 80, 50, 50, .ok true, true, some 200⟩

/-- An iteration ending in a successful registration (`rps = 10`, elapsed
`200s`, healthy instance, registration status 200, reset time `201`). -/
def envReg : Env := ⟨false, false, 10, 200, 201, .ok true, true, some 200⟩

/-- An iteration with `rps = 80`, above the threshold: no scale-out. -/
def envIdle : Env := ⟨false, false, 80, 200, 201, .ok true, true, some 200⟩

/-- An iteration whose scale-out attempt hits a provisioning exception. -/
def envPerr : Env := ⟨false, false, 10, 200, 201, .perror, false, none⟩

/-- A response text containing `name=a.log` followed by a newline. -/
def respText : List Char :=
  ['n', 'a', 'm', 'e', '=', 'a', '.', 'l', 'o', 'g', '\n', 'x']

/-! ## Lemmas about the loop body -/

/-- Every branch of the `try` block records an initiated attempt. -/
theorem attemptStep_attempted (env : Env) (st : LoopState) :
    (attemptStep env st).2.attempted = true := by
  unfold attemptStep
  rcases env.provision with _ | hasDns
  · rfl
  · cases hasDns <;> cases env.healthOk <;> rcases env.addStatus with _ | code <;>
      simp only [Bool.false_eq_true, if_false, if_true] <;>
      first
        | rfl
        | (by_cases h200 : code = 200 <;> simp [h200])

/-- The cooldown timestamp after one iteration: reset to the post-registration
clock exactly on the 200 branch, otherwise untouched. -/
theorem stepIter_lastLaunch (env : Env) (st : LoopState) :
    (stepIter env st).1.lastLaunchTime =
      if scaleCond env st ∧ env.provision = .ok true ∧ env.healthOk = true ∧
          env.addStatus = some 200
      then env.nowReg else st.lastLaunchTime := by
  unfold stepIter attemptStep
  by_cases hc : scaleCond env st
  · rcases hp : env.provision with _ | hasDns
    · simp [hc, hp]
    · cases hasDns <;> cases hh : env.healthOk <;> rcases ha : env.addStatus with _ | code <;>
        simp [hc, hp, hh, ha] <;>
        (try (by_cases h200 : code = 200 <;> simp [h200]))
  · simp [hc]

/-! ## Claims C1, C2, C3, C6, C7 (the monitoring loop) -/

/-- Claim C1: in an iteration of the monitoring loop, a scale-out attempt (a
call to provision a new web-service instance) is initiated if and only if the
parsed rps is strictly below 50 and the elapsed time since the last recorded
scale action strictly exceeds 100 seconds; if either condition fails, no
attempt is initiated. -/
theorem scaleout_attempt_iff (env : Env) (st : LoopState) :
    (stepIter env st).2.attempted = true ↔
      env.rps < 50 ∧ env.now - st.lastLaunchTime > 100 := by
  unfold stepIter
  by_cases h : scaleCond env st
  · rw [if_pos h]
    exact ⟨fun _ => h, fun _ => attemptStep_attempted env st⟩
  · rw [if_neg h]
    constructor
    · intro hfalse; exact absurd hfalse (by simp)
    · intro hcond; exact absurd hcond h

/-- Claim C2: the cooldown timestamp `last_launch_time` is updated during a
scale-out attempt exactly when the attempt ends with the registration request
returning HTTP 200; on a provisioning exception, a missing public DNS name, a
failed health probe, a raised registration request, or a non-200 registration
status it is left unchanged. -/
theorem cooldown_reset_iff_registration (env : Env) (st : LoopState) :
    (((env.rps < 50 ∧ env.now - st.lastLaunchTime > 100) ∧ env.provision = .ok true ∧
        env.healthOk = true ∧ env.addStatus = some 200) →
      (stepIter env st).1.lastLaunchTime = env.nowReg) ∧
    (¬ ((env.rps < 50 ∧ env.now - st.lastLaunchTime > 100) ∧ env.provision = .ok true ∧
        env.healthOk = true ∧ env.addStatus = some 200) →
      (stepIter env st).1.lastLaunchTime = st.lastLaunchTime) := by
  rw [stepIter_lastLaunch]
  unfold scaleCond
  constructor
  · intro h; rw [if_pos h]
  · intro h; rw [if_neg h]

/-- Witness for C2: with rps 10, elapsed 200 s and a 200 registration status
the timestamp becomes the reset clock 201; with rps 80 it stays 0. -/
theorem cooldown_reset_iff_registration_witness :
    (stepIter envReg (initState 0)).1.lastLaunchTime = 201 ∧
    (stepIter envIdle (initState 0)).1.lastLaunchTime = 0 :=
  ⟨(cooldown_reset_iff_registration envReg (initState 0)).1 (by decide),
   (cooldown_reset_iff_registration envIdle (initState 0)).2 (by decide)⟩

/-- Claim C3: the test-completion check guards the loop: it is evaluated
before the rps-threshold check, and when it returns true the loop stops with
the state untouched and no scale-out attempt initiated in that iteration
(empty iteration record), whatever the rest of the trace holds. -/
theorem completion_halts_loop (env : Env) (rest : List Env) (st : LoopState)
    (hnr : env.pollRaises = false) (hdone : env.testComplete = true) :
    runLoop (env :: rest) st = ⟨st, .completed, []⟩ := by
  simp [runLoop, hnr, hdone]

/-- Witness for C3: a completed-test iteration (with rps 80 irrelevant) halts
the loop immediately. -/
theorem completion_halts_loop_witness :
    runLoop [envDone] (initState 0) = ⟨initState 0, .completed, []⟩ :=
  completion_halts_loop envDone [] (initState 0) rfl rfl

/-- Claim C6: on every branch through the loop body the end-of-iteration sleep
is at most 1 second (the missing-DNS `continue` branch skips the sleep
entirely, i.e. sleeps 0 seconds; all other branches sleep exactly 1). -/
theorem loop_sleep_bounded (env : Env) (st : LoopState) :
    (stepIter env st).2.sleepSecs ≤ 1 := by
  unfold stepIter attemptStep
  by_cases hc : scaleCond env st
  · rcases hp : env.provision with _ | hasDns
    · simp [hc, hp]
    · cases hasDns <;> cases hh : env.healthOk <;> rcases ha : env.addStatus with _ | code <;>
        simp [hc, hp, hh, ha] <;>
        (try (by_cases h200 : code = 200 <;> simp [h200]))
  · simp [hc]

/-- Claim C7: a provisioning exception during a scale-out attempt is caught:
the iteration records the error (`provisionError` models the log line), the
controller state is unchanged, exactly one provisioning call was made (no
retry scheduled within the attempt), and the loop goes on to process the rest
of the trace — the exception never terminates the run. -/
theorem provision_error_recoverable (env : Env) (rest : List Env) (st : LoopState)
    (hnr : env.pollRaises = false) (hnc : env.testComplete = false)
    (hrps : env.rps < 50) (hcd : env.now - st.lastLaunchTime > 100)
    (hp : env.provision = .perror) :
    stepIter env st = (st, ⟨true, .provisionError, 1, 1⟩) ∧
    runLoop (env :: rest) st =
      ⟨(runLoop rest st).final, (runLoop rest st).exit,
        (⟨true, .provisionError, 1, 1⟩ : IterRec) :: (runLoop rest st).recs⟩ := by
  have hstep : stepIter env st = (st, ⟨true, .provisionError, 1, 1⟩) := by
    unfold stepIter attemptStep
    rw [if_pos (show scaleCond env st from ⟨hrps, hcd⟩), hp]
  exact ⟨hstep, by simp [runLoop, hnr, hnc, hstep]⟩

/-- Witness for C7: a concrete provisioning failure leaves the state intact
and the loop running. -/
theorem provision_error_recoverable_witness :
    stepIter envPerr (initState 0) = (initState 0, ⟨true, .provisionError, 1, 1⟩) ∧
    runLoop [envPerr] (initState 0) =
      ⟨(runLoop [] (initState 0)).final, (runLoop [] (initState 0)).exit,
        (⟨true, .provisionError, 1, 1⟩ : IterRec) :: (runLoop [] (initState 0)).recs⟩ :=
  provision_error_recoverable envPerr [] (initState 0) rfl rfl (by decide) (by decide) rfl

/-! ## Lemmas for claim C8: tracked ids stay fresh -/

/-- One iteration preserves the invariant that the tracked id list is exactly
`List.range nextId` (EC2 ids modelled as a fresh counter). -/
theorem stepIter_ids (env : Env) (st : LoopState)
    (h : st.allInstanceIds = List.range st.nextId) :
    (stepIter env st).1.allInstanceIds = List.range (stepIter env st).1.nextId := by
  unfold stepIter attemptStep
  by_cases hc : scaleCond env st
  · rcases hp : env.provision with _ | hasDns
    · simpa [hc, hp] using h
    · have happ : st.allInstanceIds ++ [st.nextId] = List.range (st.nextId + 1) := by
        rw [h, List.range_succ st.nextId]
      cases hasDns <;> cases hh : env.healthOk <;> rcases ha : env.addStatus with _ | code <;>
        simp [hc, hp, hh, ha, happ] <;>
        (try (by_cases h200 : code = 200 <;> simp [h200, happ]))
  · simpa [hc] using h

/-- The whole loop preserves the freshness invariant. -/
theorem runLoop_ids (envs : List Env) (st : LoopState)
    (h : st.allInstanceIds = List.range st.nextId) :
    (runLoop envs st).final.allInstanceIds =
      List.range (runLoop envs st).final.nextId := by
  induction envs generalizing st with
  | nil => simpa [runLoop] using h
  | cons env rest ih =>
    by_cases hr : env.pollRaises
    · simpa [runLoop, hr] using h
    · by_cases hd : env.testComplete
      · simpa [runLoop, hr, hd] using h
      · simpa [runLoop, hr, hd] using ih (stepIter env st).1 (stepIter_ids env st h)

/-- Claim C8: on every exit path of task1's `main` — completion, injected
error, or a trace that is still running — the `finally` teardown passes the
final tracked id list to `terminate`, that list holds each identifier exactly
once (`Nodup`), and the shared security group deletion is issued; and task2's
`main` calls `destroy_resources` exactly once on both of its exit paths. -/
theorem teardown_releases_all :
    (∀ (t0 : Int) (envs : List Env),
        (mainModel t0 envs).terminated =
          (runLoop envs (initState t0)).final.allInstanceIds ∧
        (mainModel t0 envs).terminated.Nodup ∧
        (mainModel t0 envs).sgDeleted = true) ∧
    (∀ b : Bool, autoDestroyCalls b = 1) := by
  constructor
  · intro t0 envs
    refine ⟨rfl, ?_, rfl⟩
    have h0 : (initState t0).allInstanceIds = List.range (initState t0).nextId := by
      show [0, 1] = List.range 2
      decide
    have := runLoop_ids envs (initState t0) h0
    show (runLoop envs (initState t0)).final.allInstanceIds.Nodup
    rw [this]
    exact List.nodup_range _
  · intro b; cases b <;> rfl

/-! ## Lemmas for claim C4: the health-probe loop -/

/-- If every probe in the remaining budget fails, the loop makes exactly
`budget` further attempts and reports failure. -/
theorem waitHealthAux_fail (probe : Nat → ProbeRes) :
    ∀ (b r : Nat), (∀ i, r ≤ i → i < r + b → probe i ≠ .status 200) →
      waitHealthAux probe r b = (false, b) := by
  intro b
  induction b with
  | zero => intro r _; rfl
  | succ b ih =>
    intro r h
    unfold waitHealthAux
    rw [if_neg (h r (Nat.le_refl r) (by omega))]
    have := ih (r + 1) (fun i h1 h2 => h i (by omega) (by omega))
    rw [this]

/-- The loop reports success only when some probe within the budget actually
returned status 200 (in particular, never on a transport error). -/
theorem waitHealthAux_true (probe : Nat → ProbeRes) :
    ∀ (b r : Nat), (waitHealthAux probe r b).1 = true →
      ∃ i, r ≤ i ∧ i < r + b ∧ probe i = .status 200 := by
  intro b
  induction b with
  | zero => intro r h; exact absurd h (by simp [waitHealthAux])
  | succ b ih =>
    intro r h
    unfold waitHealthAux at h
    by_cases hp : probe r = .status 200
    · exact ⟨r, Nat.le_refl r, by omega, hp⟩
    · rw [if_neg hp] at h
      obtain ⟨i, h1, h2, h3⟩ := ih (r + 1) h
      exact ⟨i, by omega, by omega, h3⟩

/-- The loop never makes more attempts than its remaining budget. -/
theorem waitHealthAux_le (probe : Nat → ProbeRes) :
    ∀ (b r : Nat), (waitHealthAux probe r b).2 ≤ b := by
  intro b
  induction b with
  | zero => intro r; exact Nat.le_refl 0
  | succ b ih =>
    intro r
    unfold waitHealthAux
    by_cases hp : probe r = .status 200
    · rw [if_pos hp]; omega
    · rw [if_neg hp]
      have := ih (r + 1)
      simpa using Nat.succ_le_succ this

/-- Claim C4: when every one of the 40 probes raises a transport error or
returns a non-200 status, `wait_for_server_health` makes exactly 40 attempts
and returns `False`; it returns `True` only when some probe within the budget
returned status 200 (never on a transport error); and it never makes more
than 40 attempts on any input. -/
theorem health_probe_budget (probe : Nat → ProbeRes) :
    ((∀ i, i < 40 → probe i ≠ .status 200) →
        wait_for_server_health probe = (false, 40)) ∧
    ((wait_for_server_health probe).1 = true →
        ∃ i, i < 40 ∧ probe i = .status 200) ∧
    (wait_for_server_health probe).2 ≤ 40 := by
  refine ⟨fun h => ?_, fun h => ?_, waitHealthAux_le probe 40 0⟩
  · exact waitHealthAux_fail probe 40 0 (fun i _ h2 => h i (by omega))
  · obtain ⟨i, _, h2, h3⟩ := waitHealthAux_true probe 40 0 h
    exact ⟨i, by omega, h3⟩

/-- Witness for C4: a probe that always raises yields exactly 40 attempts and
failure. -/
theorem health_probe_budget_witness :
    wait_for_server_health (fun _ => ProbeRes.raised) = (false, 40) :=
  (health_probe_budget (fun _ => ProbeRes.raised)).1 (by decide)

/-- Claim C10: task2's `is_test_complete` is total: when the log fetch raises,
nothing is written, the file is left truncated to empty and the result is
`false`; on success the fetched text is written and the result is computed
from the file's contents.  task1's `is_test_complete` propagates any fetch
exception to its caller. -/
theorem log_fetch_error_handling (fetchRes : Except Unit (List Char)) :
    (∀ e, fetchRes = .error e → autoIsTestComplete fetchRes = (false, [])) ∧
    (autoIsTestComplete fetchRes).1 =
      containsTok finishedMarker (autoIsTestComplete fetchRes).2 ∧
    (∀ text, fetchRes = .ok text →
      autoIsTestComplete fetchRes = (containsTok finishedMarker text, text)) ∧
    (∀ e, fetchRes = .error e → hsIsTestComplete fetchRes = .error e) := by
  refine ⟨fun e he => ?_, ?_, fun text ht => ?_, fun e he => ?_⟩
  · subst he; rfl
  · rcases fetchRes with e | text <;> rfl
  · subst ht; rfl
  · subst he; rfl

/-- Witness for C10: a raised fetch yields `(False, empty file)` in task2 and
a propagated exception in task1. -/
theorem log_fetch_error_handling_witness :
    autoIsTestComplete (Except.error ()) = (false, []) ∧
    hsIsTestComplete (Except.error ()) = Except.error () :=
  ⟨(log_fetch_error_handling (Except.error ())).1 () rfl,
   (log_fetch_error_handling (Except.error ())).2.2.2 () rfl⟩

/-! ## Lemmas for claim C5: `configparser` section lists -/

/-- Every section `firstDedupAux` keeps came from the input list. -/
theorem firstDedupAux_subset :
    ∀ (l seen : List (List Char)) (x : List Char),
      x ∈ firstDedupAux l seen → x ∈ l := by
  intro l
  induction l with
  | nil => intro seen x h; exact absurd h (by simp [firstDedupAux])
  | cons s rest ih =>
    intro seen x h
    unfold firstDedupAux at h
    by_cases hs : s ∈ seen
    · rw [if_pos hs] at h
      exact List.mem_cons_of_mem s (ih seen x h)
    · rw [if_neg hs] at h
      rcases List.mem_cons.mp h with hx | hx


      · exact hx ▸ List.mem_cons_self s rest
      · exact List.mem_cons_of_mem s (ih (s :: seen) x hx)

/-- On a duplicate-free header list, `configparser`'s merging is the
identity. -/
theorem firstDedupAux_id :
    ∀ (l seen : List (List Char)), l.Nodup → (∀ s ∈ l, s ∉ seen) →
      firstDedupAux l seen = l := by
  intro l
  induction l with
  | nil => intro seen _ _; rfl
  | cons s rest ih =>
    intro seen hnd hdisj
    unfold firstDedupAux
    rw [if_neg (hdisj s (List.mem_cons_self s rest))]
    have hrest : firstDedupAux rest (s :: seen) = rest := by
      refine ih (s :: seen) (List.Nodup.of_cons hnd) (fun t ht => ?_)
      intro hmem
      rcases List.mem_cons.mp hmem with h1 | h1
      · exact (List.nodup_cons.mp hnd).1 (h1 ▸ ht)
      · exact hdisj t (List.mem_cons_of_mem s ht) h1
    rw [hrest]

/-- Claim C5 (amended): `get_rps` returns 0 when no section contains
`Current rps=`; on a report whose section headers are pairwise distinct it
returns the value of the last-occurring rps section (the spec-side
`lastRpsSpec`); in particular three rps sections 10, 30, 45 yield 45.
(`configparser` merges a *duplicate* header into its first occurrence, which
is where `get_rps` deviates from `lastRpsSpec`; see the counterexample.) -/
theorem rps_parse_last_distinct :
    (∀ sections : List (List Char),
        (∀ s ∈ sections, containsTok rpsMarker s = false) →
        get_rps sections = some 0) ∧
    (∀ sections : List (List Char), sections.Nodup →
        get_rps sections = lastRpsSpec sections) ∧
    get_rps [rpsSec10, rpsSec30, rpsSec45] = some 45 := by
  refine ⟨fun sections h => ?_, fun sections hnd => ?_, by decide⟩
  · have hfind :
        (firstDedup sections).reverse.find? (fun s => containsTok rpsMarker s) = none := by
      refine List.find?_eq_none.mpr (fun x hx => ?_)
      have hx2 : x ∈ sections :=
        firstDedupAux_subset sections [] x (List.mem_reverse.mp hx)
      simp [h x hx2]
    unfold get_rps
    rw [hfind]
  · have hdedup : firstDedup sections = sections :=
      firstDedupAux_id sections [] hnd (by simp)
    unfold get_rps lastRpsSpec
    rw [hdedup]

/-- Witness for C5: a report with no rps section parses to 0, and a
duplicate-free report agrees with the spec-side last-occurrence reading. -/
theorem rps_parse_last_distinct_witness :
    get_rps [logTok] = some 0 ∧
    get_rps [rpsSec10, rpsSec30, rpsSec45] =
      lastRpsSpec [rpsSec10, rpsSec30, rpsSec45] :=
  ⟨rps_parse_last_distinct.1 [logTok] (by decide),
   rps_parse_last_distinct.2.1 [rpsSec10, rpsSec30, rpsSec45] (by decide)⟩

/-- Counterexample for C5 as stated: in a report whose sections read
`Current rps=10`, `Current rps=45`, `Current rps=10` in order, the
most-recently-reported value is 10, but `configparser` merges the duplicate
header `Current rps=10` into its first occurrence, so the code returns 45,
not the last-occurring 10. -/
theorem rps_parse_duplicate_counterexample :
    get_rps [rpsSec10, rpsSec45, rpsSec10] = some 45 ∧
    lastRpsSpec [rpsSec10, rpsSec45, rpsSec10] = some 10 ∧
    (some (45 : Rat) : Option Rat) ≠ some (10 : Rat) := by
  decide

/-! ## Lemmas for claim C9: the `name=(.*log)` scanner -/

/-- `log` does not occur in the empty region. -/
theorem logAt_nil (j : Nat) : logAt [] j = false := by
  unfold logAt
  rw [List.drop_nil]
  rfl

/-- Shifting a `log` occurrence across a leading character. -/
theorem logAt_cons_succ (c : Char) (r : List Char) (j : Nat) :
    logAt (c :: r) (j + 1) = logAt r j := by
  unfold logAt
  rw [List.drop_succ_cons]

/-- A `log` occurrence at the head of the region is a `log` head. -/
theorem logAt_cons_zero (c : Char) (r : List Char) :
    logAt (c :: r) 0 = logTok.isPrefixOf (c :: r) := rfl

/-- A verified Boolean prefix determines the corresponding `take`. -/
theorem isPrefixOf_take :
    ∀ (p l : List Char), p.isPrefixOf l = true → List.take p.length l = p := by
  intro p
  induction p with
  | nil => intro l _; rfl
  | cons a p ih =>
    intro l h
    cases l with
    | nil => exact absurd h (by simp [List.isPrefixOf])
    | cons b l =>
      simp only [List.isPrefixOf, Bool.and_eq_true, beq_iff_eq] at h
      obtain ⟨hab, hpl⟩ := h
      rw [List.length_cons, List.take_succ_cons, ih l hpl, hab]

/-- `greedyCap` fails exactly when `log` occurs nowhere in the region. -/
theorem gc_none : ∀ r : List Char, greedyCap r = none ↔ ∀ j, logAt r j = false := by
  intro r
  induction r with
  | nil =>
    constructor
    · intro _ j; exact logAt_nil j
    · intro _; rfl
  | cons c rest ih =>
    constructor
    · intro h j
      simp only [greedyCap] at h
      cases hg : greedyCap rest with
      | some cap => rw [hg] at h; simp at h
      | none =>
        rw [hg] at h
        by_cases hp : logTok.isPrefixOf (c :: rest) = true
        · rw [if_pos hp] at h; exact absurd h (by simp)
        · cases j with
          | zero =>
            rw [logAt_cons_zero]
            revert hp
            cases logTok.isPrefixOf (c :: rest) <;> simp
          | succ j =>
            rw [logAt_cons_succ]
            exact (ih.mp hg) j
    · intro h
      cases hg : greedyCap rest with
      | some cap =>
        exfalso
        have hrest : ∀ j, logAt rest j = false := fun j => by
          have hj := h (j + 1); rwa [logAt_cons_succ] at hj
        have hnone := ih.mpr hrest
        rw [hnone] at hg
        exact Option.noConfusion hg
      | none =>
        have h0 : logTok.isPrefixOf (c :: rest) = false := by
          have := h 0; rwa [logAt_cons_zero] at this
        simp [greedyCap, hg, h0]

/-- A successful `greedyCap` is the prefix of the region ending at the *last*
occurrence of `log`. -/
theorem gc_some : ∀ (r cap : List Char), greedyCap r = some cap →
    ∃ j, logAt r j = true ∧ cap = List.take (j + 3) r ∧
      ∀ j', logAt r j' = true → j' ≤ j := by
  intro r
  induction r with
  | nil => intro cap h; exact absurd h (by simp [greedyCap])
  | cons c rest ih =>
    intro cap h
    cases hg : greedyCap rest with
    | some cap' =>
      have hcap : cap = c :: cap' := by
        simp only [greedyCap, hg] at h
        exact (Option.some.inj h).symm
      obtain ⟨j, hj1, hj2, hj3⟩ := ih cap' hg
      refine ⟨j + 1, ?_, ?_, ?_⟩
      · rwa [logAt_cons_succ]
      · rw [hcap, hj2]
        have h4 : j + 1 + 3 = (j + 3) + 1 := by omega
        rw [h4, List.take_succ_cons]
      · intro j' hj'
        cases j' with
        | zero => omega
        | succ k =>
          rw [logAt_cons_succ] at hj'
          exact Nat.succ_le_succ (hj3 k hj')
    | none =>
      by_cases hp : logTok.isPrefixOf (c :: rest) = true
      · have hcap : cap = logTok := by
          simp only [greedyCap, hg] at h
          rw [if_pos hp] at h
          exact (Option.some.inj h).symm
        refine ⟨0, ?_, ?_, ?_⟩
        · rwa [logAt_cons_zero]
        · rw [hcap]
          have := isPrefixOf_take logTok (c :: rest) hp
          simpa [logTok] using this.symm
        · intro j' hj'
          cases j' with
          | zero => exact Nat.le_refl 0
          | succ k =>
            rw [logAt_cons_succ] at hj'
            have := (gc_none rest).mp hg k
            rw [hj'] at this
            exact absurd this (by simp)
      · exfalso
        simp only [greedyCap, hg] at h
        rw [if_neg hp] at h
        exact Option.noConfusion h

/-- Shifting a whole-pattern match across a leading character. -/
theorem matchAt_cons_succ (c : Char) (s : List Char) (i : Nat) :
    matchAt (c :: s) (i + 1) ↔ matchAt s i := by
  unfold matchAt regionAt
  have h1 : i + 1 + 5 = (i + 5) + 1 := by omega
  rw [List.drop_succ_cons, h1, List.drop_succ_cons]

/-- The scanner fails exactly when the pattern matches at no index. -/
theorem scan_none : ∀ s : List Char, scanTestId s = none ↔ ∀ i, ¬ matchAt s i := by
  intro s
  induction s with
  | nil =>
    constructor
    · intro _ i hm
      have h1 := hm.1
      rw [List.drop_nil] at h1
      exact absurd h1 (by decide)
    · intro _; rfl
  | cons c rest ih =>
    by_cases hname : nameTok.isPrefixOf (c :: rest) = true
    · cases hg : greedyCap (takeLine (List.drop 5 (c :: rest))) with
      | some cap =>
        have hscan : scanTestId (c :: rest) = some cap := by
          rw [scanTestId, if_pos hname, hg]
        constructor
        · intro h; rw [hscan] at h; exact absurd h (by simp)
        · intro hall
          exfalso
          apply hall 0
          obtain ⟨j, hj1, _, _⟩ := gc_some _ cap hg
          exact ⟨hname, ⟨j, hj1⟩⟩
      | none =>
        have hscan : scanTestId (c :: rest) = scanTestId rest := by
          rw [scanTestId, if_pos hname, hg]
        rw [hscan, ih]
        constructor
        · intro hall i
          cases i with
          | zero =>
            intro hm
            obtain ⟨j, hj⟩ := hm.2
            have hf := (gc_none _).mp hg j
            have hreg : regionAt (c :: rest) 0 = takeLine (List.drop 5 (c :: rest)) := rfl
            rw [hreg] at hj
            rw [hj] at hf
            exact absurd hf (by simp)
          | succ i =>
            intro hm
            exact hall i ((matchAt_cons_succ c rest i).mp hm)
        · intro hall i hm
          exact hall (i + 1) ((matchAt_cons_succ c rest i).mpr hm)
    · have hscan : scanTestId (c :: rest) = scanTestId rest := by
        rw [scanTestId, if_neg hname]
      rw [hscan, ih]
      constructor
      · intro hall i
        cases i with
        | zero => intro hm; exact hname hm.1
        | succ i => intro hm; exact hall i ((matchAt_cons_succ c rest i).mp hm)
      · intro hall i hm
        exact hall (i + 1) ((matchAt_cons_succ c rest i).mpr hm)

/-- On the leftmost match the scanner returns the greedy capture of that
match's region. -/
theorem scan_first : ∀ (s : List Char) (i : Nat), matchAt s i →
    (∀ k, k < i → ¬ matchAt s k) → scanTestId s = greedyCap (regionAt s i) := by
  intro s
  induction s with
  | nil =>
    intro i hm _
    exfalso
    have h1 := hm.1
    rw [List.drop_nil] at h1
    exact absurd h1 (by decide)
  | cons c rest ih =>
    intro i hm hleast
    cases i with
    | zero =>
      have hname : nameTok.isPrefixOf (c :: rest) = true := hm.1
      obtain ⟨j, hj⟩ := hm.2
      have hreg : regionAt (c :: rest) 0 = takeLine (List.drop 5 (c :: rest)) := rfl
      cases hg : greedyCap (takeLine (List.drop 5 (c :: rest))) with
      | none =>
        exfalso
        have hf := (gc_none _).mp hg j
        rw [hreg] at hj
        rw [hj] at hf
        exact absurd hf (by simp)
      | some cap =>
        rw [scanTestId, if_pos hname, hg, hreg, hg]
    | succ i =>
      have h0 : ¬ matchAt (c :: rest) 0 := hleast 0 (Nat.succ_pos i)
      have hm' : matchAt rest i := (matchAt_cons_succ c rest i).mp hm
      have hleast' : ∀ k, k < i → ¬ matchAt rest k := fun k hk hmk =>
        hleast (k + 1) (Nat.succ_lt_succ hk) ((matchAt_cons_succ c rest k).mpr hmk)
      have hreg : regionAt (c :: rest) (i + 1) = regionAt rest i := by
        unfold regionAt
        have h1 : i + 1 + 5 = (i + 5) + 1 := by omega
        rw [h1, List.drop_succ_cons]
      by_cases hname : nameTok.isPrefixOf (c :: rest) = true
      · have hnolog : ∀ j, logAt (takeLine (List.drop 5 (c :: rest))) j = false := by
          intro j
          cases hb : logAt (takeLine (List.drop 5 (c :: rest))) j with
          | false => rfl
          | true => exact absurd (⟨hname, ⟨j, hb⟩⟩ : matchAt (c :: rest) 0) h0
        have hgc : greedyCap (takeLine (List.drop 5 (c :: rest))) = none :=
          (gc_none _).mpr hnolog
        have hscan : scanTestId (c :: rest) = scanTestId rest := by
          rw [scanTestId, if_pos hname, hgc]
        rw [hscan, hreg]
        exact ih i hm' hleast'
      · have hscan : scanTestId (c :: rest) = scanTestId rest := by
          rw [scanTestId, if_neg hname]
        rw [hscan, hreg]
        exact ih i hm' hleast'

/-- Claim C9: `get_test_id` is a partial function of the response text: it
returns `none` (the Python code raises `IndexError`) exactly when the pattern
`name=(.*log)` matches nowhere; and whenever `i` is the leftmost match index,
it returns the capture of that match — the prefix of the rest of the line
after `name=` extending to the last occurrence of `log` on it. -/
theorem test_id_first_match (s : List Char) :
    (get_test_id s = none ↔ ∀ i, ¬ matchAt s i) ∧
    (∀ i, matchAt s i → (∀ k, k < i → ¬ matchAt s k) →
      ∃ cap j, get_test_id s = some cap ∧ logAt (regionAt s i) j = true ∧
        cap = List.take (j + 3) (regionAt s i) ∧
        ∀ j', logAt (regionAt s i) j' = true → j' ≤ j) := by
  constructor
  · exact scan_none s
  · intro i hm hleast
    have hscan := scan_first s i hm hleast
    cases hg : greedyCap (regionAt s i) with
    | none =>
      exfalso
      obtain ⟨j, hj⟩ := hm.2
      have hf := (gc_none _).mp hg j
      rw [hj] at hf
      exact absurd hf (by simp)
    | some cap =>
      obtain ⟨j, h1, h2, h3⟩ := gc_some (regionAt s i) cap hg
      refine ⟨cap, j, ?_, h1, h2, h3⟩
      show scanTestId s = some cap
      rw [hscan, hg]

/-- Witness for C9: on the response text `name=a.log\nx` the match at index 0
is leftmost and the capture is `a.log` (extending to the `log` at region
index 2). -/
theorem test_id_first_match_witness :
    ∃ cap j, get_test_id respText = some cap ∧ logAt (regionAt respText 0) j = true ∧
      cap = List.take (j + 3) (regionAt respText 0) ∧
      ∀ j', logAt (regionAt respText 0) j' = true → j' ≤ j :=
  (test_id_first_match respText).2 0 ⟨by decide, ⟨2, by decide⟩⟩
    (fun k hk => absurd hk (Nat.not_lt_zero k))
